import Mathlib

/-!
Verification of the apportionment engine in `src/apportionment.py`.

The two allocators `equal_proportions` (highest averages) and
`largest_remainders` are shallowly embedded below.  Conventions of the
embedding:

* The pandas `DataFrame` passed to the allocators is modelled by `Table`:
  the `POPULATION` and `APP2010` columns it carries on entry, plus the
  working `SEATS` and `PRIORITY` columns that the Python code writes into
  the very same frame (`data["SEATS"] = 1`, `data['PRIORITY'] = ...`).
  Since the source mutates its argument in place, each embedded allocator
  returns the post-run state of the input table alongside the fresh result
  frame built by its final `return pd.DataFrame(...)` statement.
* Floating-point arithmetic is modelled by exact rationals; the spec (§1)
  explicitly disclaims bit-for-bit parity with the numeric library's
  rounding.  The Huntington-Hill priority `pop / sqrt(s*(s+1))` is
  irrational, so the model stores its square `pop^2 / (s*(s+1))`, which is
  order-isomorphic on the nonnegative priorities and therefore selects the
  same `idxmax` entity at every step.
* The `while` loops of the source are given explicit fuel; running out of
  fuel yields the distinguished outcome `Err.fuelLeer`, a modelling
  artifact that stands for "the Python loop has not terminated within
  `fuel` iterations".
* Python failure modes are values of `Err`.  The source signals failures
  only through its bare `assert` statements (`Err.assertionFailed`) and
  through `Series.idxmax` on an empty series (`Err.idxmaxEmpty`, a pandas
  `ValueError`).  Modelled from the spec: the spec's §7 error taxonomy
  names `InsufficientSeatsError`, `NonConvergenceError` and
  `QuotaOverflowError`; these constructors are present so that claims
  phrased in terms of the taxonomy can be stated, but no embedded function
  ever produces them — the source has no such classes.
* `seats` targets are rationals: `main` can pass a non-integer target
  (cube-root rule), and the loop bounds compare an integer running total
  against that real-valued threshold.
-/

/-- Divisor methods of the highest-averages family (string dispatch at
`src/apportionment.py:44-55`; any unrecognized string, including the CLI's
`adams`, falls through to the Huntington-Hill default). -/
inductive DivisorType
  | jefferson
  | webster
  | imperiali
  | danish
  | hamilton
  | huntingtonHill
  deriving DecidableEq, Repr

/-- Quota formulas of the largest-remainders family
(`src/apportionment.py:86-94`). -/
inductive QuotaType
  | droop
  | hagenbachBischoff
  | imperiali
  | hare
  deriving DecidableEq, Repr

/-- Outcomes of a failed run.  `assertionFailed` is a Python
`AssertionError` from the sanity checks, `idxmaxEmpty` the pandas
`ValueError` raised by `idxmax` on an empty series, and `fuelLeer` the
fuel-exhaustion modelling artifact.  Modelled from the spec: the last
three constructors are the spec's §7 taxonomy names
(`InsufficientSeatsError`, `NonConvergenceError`, `QuotaOverflowError`);
the source never raises a distinct error of any of those kinds. -/
inductive Err
  | assertionFailed
  | idxmaxEmpty
  | fuelLeer
  | insufficientSeats
  | nonConvergence
  | quotaOverflow
  deriving DecidableEq, Repr

/-- The mutable pandas frame handed to the allocators: `POPULATION` and
`APP2010` input columns, plus the working `SEATS` and `PRIORITY` columns,
`none` while the corresponding column has not been created. -/
structure Table where
  pops : List ℕ
  app2010 : List ℕ
  seats : Option (List ℕ) := none
  priority : Option (List ℚ) := none
  deriving DecidableEq, Repr

/-- The fresh frame built by the final
`pd.DataFrame(dict(POPULATION=..., SEATS=...))` of each allocator. -/
structure Result where
  pops : List ℕ
  seats : List ℕ
  deriving DecidableEq, Repr

deriving instance DecidableEq for Except

attribute [local semireducible] Rat.mul Rat.add Rat.sub Rat.inv

/-- Accumulator loop of `idxmax`: current best index, best value, index of
the next element.  The strict `<` update makes the first occurrence of the
maximum win, matching `pandas.Series.idxmax`. -/
def idxmaxGo (best : ℕ) (bestv : ℚ) (i : ℕ) : List ℚ → ℕ
  | [] => best
  | v :: vs => if bestv < v then idxmaxGo i v (i + 1) vs else idxmaxGo best bestv (i + 1) vs

/-- `pandas.Series.idxmax`: position of the first occurrence of the
maximum; `none` on an empty series (a `ValueError` in pandas). -/
def idxmax : List ℚ → Option ℕ
  | [] => none
  | v :: vs => some (idxmaxGo 0 v 1 vs)

/-- Per-entity priority `POPULATION / divisor` for one entity with
population `p` holding `s` seats (`src/apportionment.py:44-57`).  For
Huntington-Hill the model stores the square of the real priority
`p / sqrt(s*(s+1))`, an order-isomorphic encoding (priorities are
nonnegative and squaring is strictly monotone there). -/
def divisorKey : DivisorType → ℕ → ℕ → ℚ
  | .jefferson, p, s => (p : ℚ) / ((s : ℚ) + 1)
  | .webster, p, s => (p : ℚ) / ((s : ℚ) * 2 + 1)
  | .imperiali, p, s => (p : ℚ) / ((s : ℚ) / 2 + 1)
  | .danish, p, s => (p : ℚ) / ((s : ℚ) * 3 + 1)
  | .hamilton, p, s => (p : ℚ) / (s : ℚ)
  | .huntingtonHill, p, s => ((p : ℚ) * (p : ℚ)) / ((s : ℚ) * ((s : ℚ) + 1))

/-- The `PRIORITY` column: `data.POPULATION / divisor` over all entities. -/
def epPriorities (dt : DivisorType) (pops seats : List ℕ) : List ℚ :=
  List.zipWith (divisorKey dt) pops seats

/-- `(data.SEATS < data.APP2010).any()` (elementwise, aligned by position). -/
def anyLtB (seats app2010 : List ℕ) : Bool :=
  (List.zipWith (fun s a => decide (s < a)) seats app2010).any id

/-- Condition of the `while` loop at `src/apportionment.py:41-42`:
`data.SEATS.sum() < seats or no_losers and (data.SEATS < data.APP2010).any()`. -/
def epCond (noLosers : Bool) (app2010 : List ℕ) (t : ℚ) (seats : List ℕ) : Bool :=
  decide ((seats.sum : ℚ) < t) || (noLosers && anyLtB seats app2010)

/-- The seat-award loop of `equal_proportions`
(`src/apportionment.py:41-61`): while the condition holds, compute the
priority column, find the first entity of maximum priority, and give it
one more seat.  Carries the current `SEATS` column and the current
`PRIORITY` column (`none` before the first iteration, since the source
only creates the column inside the loop body). -/
def epLoop (dt : DivisorType) (pops app2010 : List ℕ) (noLosers : Bool) (t : ℚ) :
    ℕ → List ℕ → Option (List ℚ) → Except Err (List ℕ × Option (List ℚ))
  | 0, seats, pr =>
    if epCond noLosers app2010 t seats then .error .fuelLeer else .ok (seats, pr)
  | fuel + 1, seats, pr =>
    if epCond noLosers app2010 t seats then
      match idxmax (epPriorities dt pops seats) with
      | none => .error .idxmaxEmpty
      | some i =>
        epLoop dt pops app2010 noLosers t fuel
          (seats.set i (seats.getD i 0 + 1)) (some (epPriorities dt pops seats))
    else
      .ok (seats, pr)

/-- `equal_proportions(data, seats, no_losers, divisor_type)`
(`src/apportionment.py:33-66`): give every entity one seat, run the award
loop, check `assert no_losers or data.SEATS.sum() == seats`, and return
the mutated input table together with the fresh result frame. -/
def equal_proportions (fuel : ℕ) (dt : DivisorType) (data : Table) (seats : ℚ)
    (noLosers : Bool) : Except Err (Table × Result) :=
  match epLoop dt data.pops data.app2010 noLosers seats fuel
      (List.replicate data.pops.length 1) none with
  | .error e => .error e
  | .ok (s, pr) =>
    if noLosers || decide ((s.sum : ℚ) = seats) then
      .ok ({ data with seats := some s, priority := pr },
           { pops := data.pops, seats := s })
    else
      .error .assertionFailed


/-- Python `int(x)` applied to a float: truncation toward zero
(`src/apportionment.py:101`). -/
def ratTrunc (q : ℚ) : ℤ :=
  if q < 0 then ⌈q⌉ else ⌊q⌋

/-- Quota formulas (`src/apportionment.py:86-94`): `math.floor` of
`total_population` divided by `seats+1`, `seats+1`, `seats+2` or `seats`
for droop, hagenbach-bischoff, imperiali and the hare default. -/
def quotaOf (qt : QuotaType) (totalPopulation : ℕ) (seats : ℚ) : ℤ :=
  match qt with
  | .droop => ⌊(totalPopulation : ℚ) / (seats + 1)⌋ + 1
  | .hagenbachBischoff => ⌊(totalPopulation : ℚ) / (seats + 1)⌋
  | .imperiali => ⌊(totalPopulation : ℚ) / (seats + 2)⌋
  | .hare => ⌊(totalPopulation : ℚ) / seats⌋

/-- One entity's initial seats (`src/apportionment.py:98-99`):
`POPULATION // quota` (numpy floor division, which yields `0` on division
by zero), then clamped up to a minimum of `1`. -/
def initialSeat (quota : ℤ) (p : ℕ) : ℕ :=
  if Int.fdiv p quota < 1 then 1 else (Int.fdiv p quota).toNat

/-- The quota used by `largest_remainders` on a given table. -/
def lrQuota (qt : QuotaType) (data : Table) (seats : ℚ) : ℤ :=
  quotaOf qt data.pops.sum seats

/-- The initial `SEATS` column of `largest_remainders` after the clamp. -/
def lrInitial (qt : QuotaType) (data : Table) (seats : ℚ) : List ℕ :=
  data.pops.map (initialSeat (lrQuota qt data seats))

/-- `remaining_seats = int(seats - data.SEATS.sum())`
(`src/apportionment.py:101`). -/
def lrRemaining (qt : QuotaType) (data : Table) (seats : ℚ) : ℤ :=
  ratTrunc (seats - ((lrInitial qt data seats).sum : ℚ))

/-- `remainders = (data.POPULATION/quota) - data.SEATS`
(`src/apportionment.py:103`), on the clamped initial seats. -/
def lrRemainders (qt : QuotaType) (data : Table) (seats : ℚ) : List ℚ :=
  List.zipWith (fun (p : ℕ) (s : ℕ) => (p : ℚ) / ((lrQuota qt data seats : ℤ) : ℚ) - (s : ℚ))
    data.pops (lrInitial qt data seats)

/-- Insert index `i` into a descending run of indices: `i` goes before
the first index of strictly smaller key, hence after every index of
equal key, keeping ties in original entity order.  This is the net
insertion step realised by a descending `sort_values`:
`pandas.core.sorting.nargsort` with `ascending=False` reverses the
values and index positions, runs numpy's stable ascending argsort
(insertion sort below the quicksort cut-off at the array sizes here),
and reverses the resulting indexer again — a double reversal whose net
effect is a stable descending sort. -/
def insertDesc (key : ℕ → ℚ) (i : ℕ) : List ℕ → List ℕ
  | [] => [i]
  | j :: js => if key j < key i then i :: j :: js else j :: insertDesc key i js

/-- Stable descending argsort of a list of keys, as positions `0..n-1`,
equal keys kept in original order. -/
def argsortDesc (r : List ℚ) : List ℕ :=
  (List.range r.length).foldl (fun acc i => insertDesc (fun k => r.getD k 0) i acc) []

/-- `sorted_remainders = remainders.sort_values(ascending=False)`
(`src/apportionment.py:104`): the index order produced by pandas —
descending by remainder, ties in original entity order (see
`insertDesc` for how `nargsort` realises this). -/
def lrRanking (qt : QuotaType) (data : Table) (seats : ℚ) : List ℕ :=
  argsortDesc (lrRemainders qt data seats)

/-- Length of the Python slice `x.iloc[:r]` over `n` rows: `r` clamped to
`[0, n]` for nonnegative `r`, and `n + r` clamped below by `0` for
negative `r` (Python slicing semantics; `List.take` caps at `n`). -/
def sliceLen (r : ℤ) (n : ℕ) : ℕ :=
  (if r < 0 then (n : ℤ) + r else r).toNat

/-- `states_to_add = sorted_remainders.iloc[:remaining_seats]`
(`src/apportionment.py:106`), as the list of row positions awarded an
extra seat. -/
def lrStatesToAdd (qt : QuotaType) (data : Table) (seats : ℚ) : List ℕ :=
  (lrRanking qt data seats).take (sliceLen (lrRemaining qt data seats) data.pops.length)

/-- `data.loc[states_to_add.index, 'SEATS'] += 1`
(`src/apportionment.py:109`): add one seat at each listed position. -/
def bump (s : List ℕ) (idxs : List ℕ) : List ℕ :=
  idxs.foldl (fun acc i => acc.set i (acc.getD i 0 + 1)) s

/-- The final `SEATS` column of a plain `largest_remainders` run. -/
def lrFinalSeats (qt : QuotaType) (data : Table) (seats : ℚ) : List ℕ :=
  bump (lrInitial qt data seats) (lrStatesToAdd qt data seats)

/-- Plain-mode `largest_remainders` (`src/apportionment.py:84-114`):
initial quota seats, remainder ranking, top-up, then
`assert data.SEATS.sum() == seats`, returning the mutated input table and
the fresh result frame. -/
def lrPlain (qt : QuotaType) (data : Table) (seats : ℚ) : Except Err (Table × Result) :=
  if ((lrFinalSeats qt data seats).sum : ℚ) = seats then
    .ok ({ data with seats := some (lrFinalSeats qt data seats) },
         { pops := data.pops, seats := lrFinalSeats qt data seats })
  else
    .error .assertionFailed

/-- The `while 1` search of `largest_remainders` in no-losers mode
(`src/apportionment.py:72-82`): rerun the plain allocator, and if any
entity ended below its `APP2010` floor, retry with one more seat.  The
inner call `largest_remainders(data, seats, no_losers=False)` omits
`quota_type`, so every inner run uses the hare default regardless of the
caller's quota choice. -/
def lrNoLosers (qt : QuotaType) : ℕ → Table → ℚ → Except Err (Table × Result)
  | 0, _, _ => .error .fuelLeer
  | fuel + 1, data, seats =>
    match lrPlain .hare data seats with
    | .error e => .error e
    | .ok (d, r) =>
      if anyLtB r.seats data.app2010 then lrNoLosers qt fuel d (seats + 1)
      else .ok (d, r)

/-- `largest_remainders(data, seats, no_losers, quota_type)`
(`src/apportionment.py:69-114`). -/
def largest_remainders (fuel : ℕ) (qt : QuotaType) (data : Table) (seats : ℚ)
    (noLosers : Bool) : Except Err (Table × Result) :=
  if noLosers then lrNoLosers qt fuel data seats else lrPlain qt data seats


theorem idxmaxGo_lt (l : List ℚ) :
    ∀ (b : ℕ) (bv : ℚ) (i : ℕ), b < i → idxmaxGo b bv i l < i + l.length := by
  induction l with
  | nil => intro b bv i h; simpa [idxmaxGo] using h
  | cons v vs ih =>
    intro b bv i h
    simp only [idxmaxGo, List.length_cons]
    split
    · have := ih i v (i + 1) (Nat.lt_succ_self i)
      omega
    · have := ih b bv (i + 1) (Nat.lt_succ_of_lt h)
      omega

theorem idxmax_lt {l : List ℚ} {k : ℕ} (h : idxmax l = some k) : k < l.length := by
  cases l with
  | nil => simp [idxmax] at h
  | cons v vs =>
    simp only [idxmax, Option.some.injEq] at h
    subst h
    have := idxmaxGo_lt vs 0 v 1 Nat.one_pos
    simp only [List.length_cons]
    omega

theorem sum_set_getD_add_one (s : List ℕ) :
    ∀ i, i < s.length → (s.set i (s.getD i 0 + 1)).sum = s.sum + 1 := by
  induction s with
  | nil => intro i h; simp at h
  | cons a as ih =>
    intro i h
    cases i with
    | zero => simp [List.set_cons_zero, List.getD_cons_zero]; omega
    | succ n =>
      simp only [List.set_cons_succ, List.getD_cons_succ, List.sum_cons]
      have := ih n (by simpa using h)
      omega

theorem sum_replicate_one (n : ℕ) : (List.replicate n 1).sum = n := by
  simp [List.sum_replicate, smul_eq_mul]

theorem epCond_plain (app : List ℕ) (t : ℚ) (s : List ℕ) :
    epCond false app t s = decide ((s.sum : ℚ) < t) := by
  simp [epCond]

/-- Inversion for the award loop: a normal exit happens exactly at a state
falsifying the loop condition; the loop preserves the number of entities
and preserves "every entity holds at least one seat". -/
theorem epLoop_ok (dt : DivisorType) (pops app : List ℕ) (nl : Bool) (t : ℚ) :
    ∀ (fuel : ℕ) (s : List ℕ) (pr : Option (List ℚ)) (s2 : List ℕ) (pr2 : Option (List ℚ)),
      epLoop dt pops app nl t fuel s pr = .ok (s2, pr2) →
      epCond nl app t s2 = false ∧ s2.length = s.length ∧
        ((∀ x ∈ s, 1 ≤ x) → ∀ x ∈ s2, 1 ≤ x) := by
  intro fuel
  induction fuel with
  | zero =>
    intro s pr s2 pr2 h
    simp only [epLoop] at h
    cases hc : epCond nl app t s with
    | true => simp [hc] at h
    | false =>
      simp only [hc, Bool.false_eq_true, if_false, Except.ok.injEq, Prod.mk.injEq] at h
      obtain ⟨rfl, rfl⟩ := h
      exact ⟨hc, rfl, fun hall => hall⟩
  | succ f ih =>
    intro s pr s2 pr2 h
    simp only [epLoop] at h
    cases hc : epCond nl app t s with
    | false =>
      simp only [hc, Bool.false_eq_true, if_false, Except.ok.injEq, Prod.mk.injEq] at h
      obtain ⟨rfl, rfl⟩ := h
      exact ⟨hc, rfl, fun hall => hall⟩
    | true =>
      simp only [hc, if_true] at h
      cases hm : idxmax (epPriorities dt pops s) with
      | none => simp [hm] at h
      | some i =>
        simp only [hm] at h
        obtain ⟨h1, h2, h3⟩ := ih _ _ _ _ h
        refine ⟨h1, by simpa [List.length_set] using h2, fun hall x hx => ?_⟩
        refine h3 (fun y hy => ?_) x hx
        rcases List.mem_or_eq_of_mem_set hy with hy' | rfl
        · exact hall y hy'
        · omega

/-- In plain mode with an integer target and at least one entity, the loop
terminates normally (given enough fuel) with total seats exactly the
target, provided it starts at or below the target. -/
theorem epLoop_runs_int (dt : DivisorType) (pops app : List ℕ) (m : ℕ) :
    ∀ (fuel : ℕ) (s : List ℕ) (pr : Option (List ℚ)),
      s.length = pops.length → 1 ≤ pops.length → s.sum ≤ m → m ≤ s.sum + fuel →
      ∃ s2 pr2, epLoop dt pops app false (m : ℚ) fuel s pr = .ok (s2, pr2) ∧ s2.sum = m := by
  intro fuel
  induction fuel with
  | zero =>
    intro s pr hlen hpos hle hfe
    have hsum : s.sum = m := le_antisymm hle (by omega)
    have hc : epCond false app (m : ℚ) s = false := by
      simp [epCond_plain, hsum]
    refine ⟨s, pr, ?_, hsum⟩
    simp [epLoop, hc]
  | succ f ih =>
    intro s pr hlen hpos hle hfe
    by_cases hlt : s.sum < m
    · have hc : epCond false app (m : ℚ) s = true := by
        simp only [epCond_plain, decide_eq_true_eq]
        exact_mod_cast hlt
      have hplen : (epPriorities dt pops s).length = s.length := by
        simp [epPriorities, List.length_zipWith, hlen]
      obtain ⟨i, hi⟩ : ∃ i, idxmax (epPriorities dt pops s) = some i := by
        cases hp : epPriorities dt pops s with
        | nil => rw [hp] at hplen; simp at hplen; omega
        | cons v vs => exact ⟨_, rfl⟩
      have hilt : i < s.length := hplen ▸ idxmax_lt hi
      obtain ⟨s2, pr2, hrun, hsum⟩ := ih (s.set i (s.getD i 0 + 1)) (some (epPriorities dt pops s))
        (by simp [List.length_set, hlen])
        hpos
        (by rw [sum_set_getD_add_one s i hilt]; omega)
        (by rw [sum_set_getD_add_one s i hilt]; omega)
      refine ⟨s2, pr2, ?_, hsum⟩
      simpa [epLoop, hc, hi] using hrun
    · have hsum : s.sum = m := le_antisymm hle (by omega)
      have hc : epCond false app (m : ℚ) s = false := by
        simp [epCond_plain, hsum]
      refine ⟨s, pr, ?_, hsum⟩
      simp [epLoop, hc]

/-- In plain mode with at least one entity, the loop terminates normally
on any (possibly fractional) target, given enough fuel. -/
theorem epLoop_runs (dt : DivisorType) (pops app : List ℕ) (t : ℚ) :
    ∀ (fuel : ℕ) (s : List ℕ) (pr : Option (List ℚ)),
      s.length = pops.length → 1 ≤ pops.length → t ≤ (s.sum : ℚ) + fuel →
      ∃ s2 pr2, epLoop dt pops app false t fuel s pr = .ok (s2, pr2) := by
  intro fuel
  induction fuel with
  | zero =>
    intro s pr hlen hpos hfe
    have hc : epCond false app t s = false := by
      simp only [epCond_plain, decide_eq_false_iff_not, not_lt]
      simpa using hfe
    exact ⟨s, pr, by simp [epLoop, hc]⟩
  | succ f ih =>
    intro s pr hlen hpos hfe
    by_cases hlt : (s.sum : ℚ) < t
    · have hc : epCond false app t s = true := by
        simp only [epCond_plain, decide_eq_true_eq]
        exact hlt
      have hplen : (epPriorities dt pops s).length = s.length := by
        simp [epPriorities, List.length_zipWith, hlen]
      obtain ⟨i, hi⟩ : ∃ i, idxmax (epPriorities dt pops s) = some i := by
        cases hp : epPriorities dt pops s with
        | nil => rw [hp] at hplen; simp at hplen; omega
        | cons v vs => exact ⟨_, rfl⟩
      have hilt : i < s.length := hplen ▸ idxmax_lt hi
      obtain ⟨s2, pr2, hrun⟩ := ih (s.set i (s.getD i 0 + 1)) (some (epPriorities dt pops s))
        (by simp [List.length_set, hlen])
        hpos
        (by rw [sum_set_getD_add_one s i hilt]; push_cast; push_cast at hfe; linarith)
      exact ⟨s2, pr2, by simpa [epLoop, hc, hi] using hrun⟩
    · have hc : epCond false app t s = false := by
        simp only [epCond_plain, decide_eq_false_iff_not]
        exact hlt
      exact ⟨s, pr, by simp [epLoop, hc]⟩

theorem getD_set_self {l : List ℕ} {i a : ℕ} (h : i < l.length) :
    (l.set i a).getD i 0 = a := by
  simp [List.getD_eq_getElem?_getD, List.getElem?_set_self h]

theorem getD_set_ne {l : List ℕ} {i j a : ℕ} (h : i ≠ j) :
    (l.set i a).getD j 0 = l.getD j 0 := by
  simp [List.getD_eq_getElem?_getD, List.getElem?_set_ne h]

/-- A false `(SEATS < APP2010).any()` means every entity meets its floor. -/
theorem anyLtB_false {s a : List ℕ} (h : anyLtB s a = false) :
    ∀ i, i < s.length → i < a.length → a.getD i 0 ≤ s.getD i 0 := by
  intro i hs ha
  have hlen : i < (List.zipWith (fun x y => decide (x < y)) s a).length := by
    rw [List.length_zipWith]; omega
  have hmem := List.getElem_mem hlen
  have hfalse := List.any_eq_false.mp h _ hmem
  rw [List.getElem_zipWith] at hfalse
  have hnot : ¬ (s[i] < a[i]) := by simpa using hfalse
  rw [List.getD_eq_getElem s 0 hs, List.getD_eq_getElem a 0 ha]
  omega

/-- Inversion of a successful `equal_proportions` run. -/
theorem ep_inv {fuel : ℕ} {dt : DivisorType} {data : Table} {t : ℚ} {nl : Bool}
    {d2 : Table} {r : Result}
    (h : equal_proportions fuel dt data t nl = .ok (d2, r)) :
    ∃ s pr,
      epLoop dt data.pops data.app2010 nl t fuel (List.replicate data.pops.length 1) none =
        .ok (s, pr) ∧
      d2 = { data with seats := some s, priority := pr } ∧
      r = { pops := data.pops, seats := s } ∧
      (nl = true ∨ (s.sum : ℚ) = t) := by
  unfold equal_proportions at h
  split at h
  · simp at h
  · rename_i s pr heq
    split at h
    · rename_i hcond
      simp only [Except.ok.injEq, Prod.mk.injEq] at h
      obtain ⟨rfl, rfl⟩ := h
      refine ⟨s, pr, heq, rfl, rfl, ?_⟩
      simpa using hcond
    · simp at h

/-- Inversion of a successful plain `largest_remainders` run. -/
theorem lrPlain_inv {qt : QuotaType} {data : Table} {t : ℚ} {d2 : Table} {r : Result}
    (h : lrPlain qt data t = .ok (d2, r)) :
    r.seats = lrFinalSeats qt data t ∧ r.pops = data.pops ∧
      d2 = { data with seats := some (lrFinalSeats qt data t) } ∧
      ((lrFinalSeats qt data t).sum : ℚ) = t := by
  unfold lrPlain at h
  split at h
  · rename_i hsum
    simp only [Except.ok.injEq, Prod.mk.injEq] at h
    obtain ⟨rfl, rfl⟩ := h
    exact ⟨rfl, rfl, rfl, hsum⟩
  · simp at h

/-- Inversion of a successful no-losers `largest_remainders` search: the
returned frames come from a plain hare-quota run at some candidate total
at least the requested one, whose result meets every floor. -/
theorem lrNoLosers_ok (qt : QuotaType) :
    ∀ (fuel : ℕ) (data : Table) (t : ℚ) (d2 : Table) (r : Result),
      lrNoLosers qt fuel data t = .ok (d2, r) →
      ∃ (d : Table) (t2 : ℚ), t ≤ t2 ∧ d.pops = data.pops ∧ d.app2010 = data.app2010 ∧
        lrPlain .hare d t2 = .ok (d2, r) ∧ anyLtB r.seats d.app2010 = false := by
  intro fuel
  induction fuel with
  | zero => intro data t d2 r h; simp [lrNoLosers] at h
  | succ f ih =>
    intro data t d2 r h
    simp only [lrNoLosers] at h
    cases hp : lrPlain .hare data t with
    | error e => rw [hp] at h; simp at h
    | ok dr =>
      obtain ⟨d, r1⟩ := dr
      rw [hp] at h
      simp only at h
      by_cases hb : anyLtB r1.seats data.app2010 = true
      · rw [if_pos hb] at h
        obtain ⟨d', t2, ht, hpops, happ, hplain, hany⟩ := ih d (t + 1) d2 r h
        have hinv := lrPlain_inv hp
        have hdpops : d.pops = data.pops := by rw [hinv.2.2.1]
        have hdapp : d.app2010 = data.app2010 := by rw [hinv.2.2.1]
        exact ⟨d', t2, by linarith, by rw [hpops, hdpops], by rw [happ, hdapp], hplain, hany⟩
      · rw [if_neg hb] at h
        simp only [Except.ok.injEq, Prod.mk.injEq] at h
        obtain ⟨rfl, rfl⟩ := h
        exact ⟨data, t, le_refl t, rfl, rfl, hp, Bool.not_eq_true _ ▸ hb⟩

theorem bump_cons (s : List ℕ) (i : ℕ) (is : List ℕ) :
    bump s (i :: is) = bump (s.set i (s.getD i 0 + 1)) is := rfl

theorem bump_length (idxs : List ℕ) : ∀ s : List ℕ, (bump s idxs).length = s.length := by
  induction idxs with
  | nil => intro s; rfl
  | cons i is ih =>
    intro s
    rw [bump_cons, ih, List.length_set]

theorem bump_one_le (idxs : List ℕ) :
    ∀ s : List ℕ, (∀ x ∈ s, 1 ≤ x) → ∀ x ∈ bump s idxs, 1 ≤ x := by
  induction idxs with
  | nil => intro s h; simpa [bump] using h
  | cons i is ih =>
    intro s h
    rw [bump_cons]
    refine ih _ (fun y hy => ?_)
    rcases List.mem_or_eq_of_mem_set hy with hy2 | rfl
    · exact h y hy2
    · omega

theorem bump_sum (idxs : List ℕ) :
    ∀ s : List ℕ, (∀ j ∈ idxs, j < s.length) → (bump s idxs).sum = s.sum + idxs.length := by
  induction idxs with
  | nil => intro s _; rfl
  | cons i is ih =>
    intro s hj
    rw [bump_cons, ih _ (fun j hjm => by rw [List.length_set]; exact hj j (List.mem_cons_of_mem _ hjm)),
      sum_set_getD_add_one s i (hj i (List.mem_cons_self i is)), List.length_cons]
    omega

theorem bump_getD (idxs : List ℕ) :
    ∀ s : List ℕ, idxs.Nodup → (∀ j ∈ idxs, j < s.length) → ∀ k,
      (bump s idxs).getD k 0 = s.getD k 0 + (if k ∈ idxs then 1 else 0) := by
  induction idxs with
  | nil => intro s _ _ k; simp [bump]
  | cons i is ih =>
    intro s hnd hj k
    rcases List.nodup_cons.mp hnd with ⟨hni, hnd2⟩
    rw [bump_cons, ih _ hnd2
      (fun j hjm => by rw [List.length_set]; exact hj j (List.mem_cons_of_mem _ hjm)) k]
    by_cases hk : k = i
    · subst hk
      rw [getD_set_self (hj k (List.mem_cons_self k is))]
      simp [List.mem_cons, hni]
    · rw [getD_set_ne (fun he => hk he.symm)]
      simp [List.mem_cons, hk]

theorem lrInitial_one_le (qt : QuotaType) (data : Table) (t : ℚ) :
    ∀ x ∈ lrInitial qt data t, 1 ≤ x := by
  intro x hx
  simp only [lrInitial, List.mem_map] at hx
  obtain ⟨p, _, rfl⟩ := hx
  unfold initialSeat
  split
  · exact le_refl 1
  · rename_i hge
    omega

theorem lrInitial_length (qt : QuotaType) (data : Table) (t : ℚ) :
    (lrInitial qt data t).length = data.pops.length := by
  simp [lrInitial]

theorem lrRemainders_length (qt : QuotaType) (data : Table) (t : ℚ) :
    (lrRemainders qt data t).length = data.pops.length := by
  simp [lrRemainders, List.length_zipWith, lrInitial_length]

/-- Strict ordering on positions induced by descending keys with ties
broken by ascending position: the order a stable descending sort
realises. -/
def idxDesc (key : ℕ → ℚ) (a b : ℕ) : Prop :=
  key b < key a ∨ (key a = key b ∧ a < b)

theorem insertDesc_perm (key : ℕ → ℚ) (i : ℕ) :
    ∀ l : List ℕ, List.Perm (insertDesc key i l) (i :: l) := by
  intro l
  induction l with
  | nil => simp [insertDesc]
  | cons j js ih =>
    rw [insertDesc]
    split
    · exact List.Perm.refl _
    · exact (ih.cons j).trans (List.Perm.swap i j js)

theorem mem_insertDesc {key : ℕ → ℚ} {i : ℕ} {l : List ℕ} {x : ℕ}
    (h : x ∈ insertDesc key i l) : x = i ∨ x ∈ l := by
  have := (insertDesc_perm key i l).mem_iff.mp h
  simpa using this

theorem insertDesc_pairwise {key : ℕ → ℚ} {i : ℕ} :
    ∀ {l : List ℕ}, (∀ j ∈ l, j < i) → l.Pairwise (idxDesc key) →
      (insertDesc key i l).Pairwise (idxDesc key) := by
  intro l
  induction l with
  | nil => intro _ _; simp [insertDesc, idxDesc]
  | cons j js ih =>
    intro hlt hp
    rcases List.pairwise_cons.mp hp with ⟨hj, hp2⟩
    rw [insertDesc]
    split
    · rename_i hik
      refine List.pairwise_cons.mpr ⟨?_, hp⟩
      intro x hx
      rcases List.mem_cons.mp hx with rfl | hx2
      · exact Or.inl hik
      · rcases hj x hx2 with h1 | ⟨h1, _⟩
        · exact Or.inl (lt_trans h1 hik)
        · exact Or.inl (h1 ▸ hik)
    · rename_i hik
      refine List.pairwise_cons.mpr
        ⟨?_, ih (fun x hx => hlt x (List.mem_cons_of_mem _ hx)) hp2⟩
      intro x hx
      rcases mem_insertDesc hx with rfl | hx2
      · rcases lt_or_eq_of_le (not_lt.mp hik) with h1 | h1
        · exact Or.inl h1
        · exact Or.inr ⟨h1.symm, hlt j (List.mem_cons_self j js)⟩
      · exact hj x hx2

theorem argsortDesc_aux (key : ℕ → ℚ) :
    ∀ n : ℕ,
      List.Perm ((List.range n).foldl (fun acc i => insertDesc key i acc) []) (List.range n) ∧
      ((List.range n).foldl (fun acc i => insertDesc key i acc) []).Pairwise (idxDesc key) := by
  intro n
  induction n with
  | zero => simp
  | succ m ih =>
    obtain ⟨hperm, hpair⟩ := ih
    have hstep : (List.range (m + 1)).foldl (fun acc i => insertDesc key i acc) [] =
        insertDesc key m ((List.range m).foldl (fun acc i => insertDesc key i acc) []) := by
      rw [List.range_succ m, List.foldl_append]
      rfl
    have hmem : ∀ j ∈ (List.range m).foldl (fun acc i => insertDesc key i acc) [], j < m := by
      intro j hj
      have := hperm.mem_iff.mp hj
      simpa using this
    constructor
    · rw [hstep, List.range_succ m]
      exact (insertDesc_perm key m _).trans
        ((hperm.cons m).trans (List.perm_append_singleton m (List.range m)).symm)
    · rw [hstep]
      exact insertDesc_pairwise hmem hpair

theorem argsortDesc_perm (r : List ℚ) :
    List.Perm (argsortDesc r) (List.range r.length) :=
  (argsortDesc_aux (fun k => r.getD k 0) r.length).1

theorem argsortDesc_pairwise (r : List ℚ) :
    (argsortDesc r).Pairwise (idxDesc (fun k => r.getD k 0)) :=
  (argsortDesc_aux (fun k => r.getD k 0) r.length).2

theorem lrRanking_perm (qt : QuotaType) (data : Table) (t : ℚ) :
    List.Perm (lrRanking qt data t) (List.range data.pops.length) := by
  unfold lrRanking
  rw [← lrRemainders_length qt data t]
  exact argsortDesc_perm _

theorem lrRanking_mem_lt {qt : QuotaType} {data : Table} {t : ℚ} {j : ℕ}
    (h : j ∈ lrRanking qt data t) : j < data.pops.length := by
  have := (lrRanking_perm qt data t).mem_iff.mp h
  simpa using this

theorem lrRanking_nodup (qt : QuotaType) (data : Table) (t : ℚ) :
    (lrRanking qt data t).Nodup :=
  (lrRanking_perm qt data t).symm.nodup (List.nodup_range _)

/-- The ranking of `sorted_remainders` is descending by remainder, with
equal remainders kept in original entity order. -/
theorem lrRanking_pairwise (qt : QuotaType) (data : Table) (t : ℚ) :
    (lrRanking qt data t).Pairwise (fun a b =>
      (lrRemainders qt data t).getD b 0 < (lrRemainders qt data t).getD a 0 ∨
      ((lrRemainders qt data t).getD a 0 = (lrRemainders qt data t).getD b 0 ∧ a < b)) := by
  unfold lrRanking
  exact argsortDesc_pairwise (lrRemainders qt data t)

theorem lrStatesToAdd_mem_lt {qt : QuotaType} {data : Table} {t : ℚ} {j : ℕ}
    (h : j ∈ lrStatesToAdd qt data t) : j < data.pops.length :=
  lrRanking_mem_lt ((List.take_sublist _ _).mem h)

theorem lrFinalSeats_length (qt : QuotaType) (data : Table) (t : ℚ) :
    (lrFinalSeats qt data t).length = data.pops.length := by
  rw [lrFinalSeats, bump_length, lrInitial_length]

theorem lrFinalSeats_one_le (qt : QuotaType) (data : Table) (t : ℚ) :
    ∀ x ∈ lrFinalSeats qt data t, 1 ≤ x :=
  bump_one_le _ _ (lrInitial_one_le qt data t)

theorem lrFinalSeats_sum (qt : QuotaType) (data : Table) (t : ℚ) :
    (lrFinalSeats qt data t).sum = (lrInitial qt data t).sum + (lrStatesToAdd qt data t).length := by
  rw [lrFinalSeats, bump_sum]
  intro j hj
  rw [lrInitial_length]
  exact lrStatesToAdd_mem_lt hj

theorem natCast_rat_eq_int {a : ℕ} {m : ℤ} (h : (a : ℚ) = (m : ℚ)) : (a : ℤ) = m := by
  exact_mod_cast h

/-- Scenario-A style input: three entities with populations 100, 80, 20. -/
def T0 : Table := { pops := [100, 80, 20], app2010 := [1, 1, 1] }

/-- State of `T0` after the in-place run of `equal_proportions` with 5
seats: `SEATS` and `PRIORITY` columns written into the frame. -/
def T0ep : Table :=
  { pops := [100, 80, 20], app2010 := [1, 1, 1],
    seats := some [2, 2, 1], priority := some [5000/3, 3200, 200] }

/-- Result frame of the 5-seat Huntington-Hill run on `T0`. -/
def R0 : Result := { pops := [100, 80, 20], seats := [2, 2, 1] }

/-- Input with a remainder tie: populations 30, 30, 40 (hare quota 20 at
5 seats gives remainders 1/2, 1/2, 0). -/
def T5 : Table := { pops := [30, 30, 40], app2010 := [1, 1, 1] }

/-- State of `T5` after the in-place 5-seat hare run: the tied entity 0
ranks first and takes the surplus seat. -/
def T5lr : Table :=
  { pops := [30, 30, 40], app2010 := [1, 1, 1], seats := some [2, 1, 2] }

/-- Result frame of the 5-seat hare run on `T5`. -/
def R5 : Result := { pops := [30, 30, 40], seats := [2, 1, 2] }

/-- Input whose imperiali-quota floor allocation overshoots a 2-seat
target. -/
def T7 : Table := { pops := [30, 30, 30], app2010 := [1, 1, 1] }

/-- Claim C1: with an integer seat target and no-losers mode disabled,
whenever either allocator returns an allocation, the total number of
seats in it equals the seat target (each allocator's final assert enforces
this postcondition). -/
theorem c1_sum_eq_target :
    (∀ (fuel : ℕ) (dt : DivisorType) (data : Table) (m : ℤ) (d2 : Table) (r : Result),
      equal_proportions fuel dt data (m : ℚ) false = .ok (d2, r) → (r.seats.sum : ℤ) = m) ∧
    (∀ (fuel : ℕ) (qt : QuotaType) (data : Table) (m : ℤ) (d2 : Table) (r : Result),
      largest_remainders fuel qt data (m : ℚ) false = .ok (d2, r) → (r.seats.sum : ℤ) = m) := by
  constructor
  · intro fuel dt data m d2 r h
    obtain ⟨s, pr, _, _, hr, hcase⟩ := ep_inv h
    rcases hcase with hnl | hsum
    · exact absurd hnl (by simp)
    · rw [hr]
      exact natCast_rat_eq_int hsum
  · intro fuel qt data m d2 r h
    have hp : lrPlain qt data (m : ℚ) = .ok (d2, r) := by
      simpa [largest_remainders] using h
    obtain ⟨hseats, _, _, hsum⟩ := lrPlain_inv hp
    rw [hseats]
    exact natCast_rat_eq_int hsum

/-- Witness for C1: the Huntington-Hill run on `T0` and the hare run on
`T5`, both at 5 seats, return allocations summing to 5. -/
theorem c1_witness :
    (R0.seats.sum : ℤ) = 5 ∧ (R5.seats.sum : ℤ) = 5 :=
  ⟨c1_sum_eq_target.1 2 .huntingtonHill T0 5 T0ep R0 (by decide),
   c1_sum_eq_target.2 0 .hare T5 5 T5lr R5 (by decide)⟩

/-- Claim C2: every allocation returned by either method, in any mode,
gives every entity at least one seat. -/
theorem c2_min_one_seat :
    (∀ (fuel : ℕ) (dt : DivisorType) (data : Table) (t : ℚ) (nl : Bool) (d2 : Table) (r : Result),
      equal_proportions fuel dt data t nl = .ok (d2, r) → ∀ x ∈ r.seats, 1 ≤ x) ∧
    (∀ (fuel : ℕ) (qt : QuotaType) (data : Table) (t : ℚ) (nl : Bool) (d2 : Table) (r : Result),
      largest_remainders fuel qt data t nl = .ok (d2, r) → ∀ x ∈ r.seats, 1 ≤ x) := by
  constructor
  · intro fuel dt data t nl d2 r h
    obtain ⟨s, pr, hrun, _, hr, _⟩ := ep_inv h
    obtain ⟨_, _, hone⟩ := epLoop_ok dt data.pops data.app2010 nl t fuel _ _ _ _ hrun
    rw [hr]
    exact hone (fun x hx => by rw [List.eq_of_mem_replicate hx])
  · intro fuel qt data t nl d2 r h
    unfold largest_remainders at h
    cases nl with
    | false =>
      rw [if_neg (by simp)] at h
      obtain ⟨hseats, _, _, _⟩ := lrPlain_inv h
      rw [hseats]
      exact lrFinalSeats_one_le qt data t
    | true =>
      rw [if_pos rfl] at h
      obtain ⟨d, t2, _, _, _, hplain, _⟩ := lrNoLosers_ok qt fuel data t d2 r h
      obtain ⟨hseats, _, _, _⟩ := lrPlain_inv hplain
      rw [hseats]
      exact lrFinalSeats_one_le .hare d t2

/-- Witness for C2: concrete runs of both allocators whose allocations
are pointwise at least one. -/
theorem c2_witness :
    (∀ x ∈ R0.seats, 1 ≤ x) ∧ (∀ x ∈ R5.seats, 1 ≤ x) :=
  ⟨c2_min_one_seat.1 2 .huntingtonHill T0 5 false T0ep R0 (by decide),
   c2_min_one_seat.2 0 .hare T5 5 false T5lr R5 (by decide)⟩

/-- Claim C3: in no-losers mode, a returned allocation of either method
gives every entity at least its APP2010 floor and totals at least the
requested target. -/
theorem c3_no_losers :
    (∀ (fuel : ℕ) (dt : DivisorType) (data : Table) (t : ℚ) (d2 : Table) (r : Result),
      data.app2010.length = data.pops.length →
      equal_proportions fuel dt data t true = .ok (d2, r) →
      t ≤ (r.seats.sum : ℚ) ∧
        ∀ i < r.seats.length, data.app2010.getD i 0 ≤ r.seats.getD i 0) ∧
    (∀ (fuel : ℕ) (qt : QuotaType) (data : Table) (t : ℚ) (d2 : Table) (r : Result),
      data.app2010.length = data.pops.length →
      largest_remainders fuel qt data t true = .ok (d2, r) →
      t ≤ (r.seats.sum : ℚ) ∧
        ∀ i < r.seats.length, data.app2010.getD i 0 ≤ r.seats.getD i 0) := by
  constructor
  · intro fuel dt data t d2 r happ h
    obtain ⟨s, pr, hrun, _, hr, _⟩ := ep_inv h
    obtain ⟨hcond, hlen, _⟩ := epLoop_ok dt data.pops data.app2010 true t fuel _ _ _ _ hrun
    rw [List.length_replicate] at hlen
    simp only [epCond, Bool.or_eq_false_iff, Bool.true_and,
      decide_eq_false_iff_not, not_lt] at hcond
    obtain ⟨hge, hany⟩ := hcond
    rw [hr]
    refine ⟨hge, fun i hi => ?_⟩
    simp only at hi ⊢
    exact anyLtB_false hany i hi (by omega)
  · intro fuel qt data t d2 r happ h
    unfold largest_remainders at h
    rw [if_pos rfl] at h
    obtain ⟨d, t2, ht2, hpops, happ2, hplain, hany⟩ := lrNoLosers_ok qt fuel data t d2 r h
    obtain ⟨hseats, _, _, hsum⟩ := lrPlain_inv hplain
    have hlen : r.seats.length = data.pops.length := by
      rw [hseats, lrFinalSeats_length, hpops]
    constructor
    · rw [hseats] at *
      rw [hsum]
      exact ht2
    · intro i hi
      have := anyLtB_false hany i hi (by rw [happ2, happ]; omega)
      rw [happ2] at this
      exact this

/-- Witness for C3: a concrete no-losers run of each allocator meeting
floors and target. -/
theorem c3_witness :
    ((5 : ℚ) ≤ (R0.seats.sum : ℚ) ∧
      ∀ i < R0.seats.length, T0.app2010.getD i 0 ≤ R0.seats.getD i 0) ∧
    ((5 : ℚ) ≤ (R5.seats.sum : ℚ) ∧
      ∀ i < R5.seats.length, T5.app2010.getD i 0 ≤ R5.seats.getD i 0) :=
  ⟨c3_no_losers.1 2 .huntingtonHill T0 5 T0ep R0 (by decide) (by decide),
   c3_no_losers.2 1 .hare T5 5 T5lr R5 (by decide) (by decide)⟩

/-- Claim C4: Scenario A — populations [100, 80, 20], 5 seats,
Huntington-Hill, plain mode — allocates 2, 2 and 1 seats respectively,
summing to 5. -/
theorem c4_scenario_a :
    equal_proportions 2 .huntingtonHill T0 5 false = .ok (T0ep, R0) ∧
      R0.seats = [2, 2, 1] ∧ R0.seats.sum = 5 := by decide

/-- Claim C5: in the largest-remainders allocator entities are ranked by
descending remainder with a stable sort — ties broken by original entity
order — and exactly the top `remaining` entities by that rank each
receive one additional seat. -/
theorem c5_stable_ranking (fuel : ℕ) (qt : QuotaType) (data : Table) (t : ℚ)
    (d2 : Table) (r : Result)
    (h : largest_remainders fuel qt data t false = .ok (d2, r)) :
    (lrRanking qt data t).Pairwise (fun a b =>
      (lrRemainders qt data t).getD b 0 < (lrRemainders qt data t).getD a 0 ∨
      ((lrRemainders qt data t).getD a 0 = (lrRemainders qt data t).getD b 0 ∧ a < b)) ∧
    ∀ k < data.pops.length,
      r.seats.getD k 0 = (lrInitial qt data t).getD k 0 +
        (if k ∈ (lrRanking qt data t).take (sliceLen (lrRemaining qt data t) data.pops.length)
         then 1 else 0) := by
  have hp : lrPlain qt data t = .ok (d2, r) := by
    simpa [largest_remainders] using h
  obtain ⟨hseats, _, _, _⟩ := lrPlain_inv hp
  refine ⟨lrRanking_pairwise qt data t, fun k _ => ?_⟩
  rw [hseats, lrFinalSeats]
  exact bump_getD _ _
    ((lrRanking_nodup qt data t).sublist (List.take_sublist _ _))
    (fun j hj => by rw [lrInitial_length]; exact lrStatesToAdd_mem_lt hj) k

/-- Witness for C5 at the `T5` run: the tied remainders 1/2 of entities 0
and 1 rank in original order, so entity 0 heads the ranking and takes the
surplus seat. -/
theorem c5_witness :
    (lrRanking .hare T5 5).Pairwise (fun a b =>
      (lrRemainders .hare T5 5).getD b 0 < (lrRemainders .hare T5 5).getD a 0 ∨
      ((lrRemainders .hare T5 5).getD a 0 = (lrRemainders .hare T5 5).getD b 0 ∧ a < b)) ∧
    ∀ k < T5.pops.length,
      R5.seats.getD k 0 = (lrInitial .hare T5 5).getD k 0 +
        (if k ∈ (lrRanking .hare T5 5).take (sliceLen (lrRemaining .hare T5 5) T5.pops.length)
         then 1 else 0) :=
  c5_stable_ranking 0 .hare T5 5 T5lr R5 (by decide)

/-- Counterexample to claim C6 as stated: a fixed target of 1 seat for the
3 entities of `T0` makes `equal_proportions` fail, but through the final
sum assertion (a Python `AssertionError`), not through a distinct
`InsufficientSeatsError` — no such error exists in the code. -/
theorem c6_counterexample :
    equal_proportions 0 .huntingtonHill T0 1 false = .error .assertionFailed ∧
    Err.assertionFailed ≠ Err.insufficientSeats := by decide

/-- Claim C6 (amended): a fixed integer target smaller than the number of
entities makes plain-mode `equal_proportions` fail via the final
sum-invariant assertion (the initial one-seat-each allocation already
exceeds the target, the award loop never runs, and the assert compares
entity count to target). -/
theorem c6_amended (fuel : ℕ) (dt : DivisorType) (data : Table) (m : ℤ)
    (h : m < data.pops.length) :
    equal_proportions fuel dt data (m : ℚ) false = .error .assertionFailed := by
  have hc : epCond false data.app2010 (m : ℚ) (List.replicate data.pops.length 1) = false := by
    simp only [epCond_plain, decide_eq_false_iff_not, not_lt, sum_replicate_one]
    have : (m : ℚ) ≤ (data.pops.length : ℚ) := by exact_mod_cast le_of_lt h
    exact this
  have hrun : epLoop dt data.pops data.app2010 false (m : ℚ) fuel
      (List.replicate data.pops.length 1) none =
        .ok (List.replicate data.pops.length 1, none) := by
    cases fuel with
    | zero => simp [epLoop, hc]
    | succ f => simp [epLoop, hc]
  unfold equal_proportions
  rw [hrun]
  have hne : ¬ ((data.pops.length : ℚ) = (m : ℚ)) := by
    intro he
    have : (data.pops.length : ℤ) = m := by exact_mod_cast he
    omega
  simp [sum_replicate_one, hne]

/-- Witness for C6 (amended): 1 seat for the 3 entities of `T0`. -/
theorem c6_witness :
    equal_proportions 0 .huntingtonHill T0 ((1 : ℤ) : ℚ) false = .error .assertionFailed :=
  c6_amended 0 .huntingtonHill T0 1 (by decide)

/-- Counterexample to claim C7 as stated: on `T7` (populations 30, 30, 30)
with a 2-seat target and the imperiali quota, the floor allocation sums to
3 > 2, `remaining` is negative, and the allocator fails with the final sum
assertion (a Python `AssertionError`) — not with a distinct
`QuotaOverflowError`, which does not exist in the code. -/
theorem c7_counterexample :
    lrRemaining .imperiali T7 2 < 0 ∧
    largest_remainders 0 .imperiali T7 2 false = .error .assertionFailed ∧
    Err.assertionFailed ≠ Err.quotaOverflow := by decide

/-- Claim C7 (amended): whenever the initial floored seat allocation
exceeds the target (`remaining < 0`), plain-mode largest-remainders fails
the final sum assertion — it does not truncate silently (nor raise a
distinct QuotaOverflowError). -/
theorem c7_amended (fuel : ℕ) (qt : QuotaType) (data : Table) (t : ℚ)
    (h : lrRemaining qt data t < 0) :
    largest_remainders fuel qt data t false = .error .assertionFailed := by
  have hplain : largest_remainders fuel qt data t false = lrPlain qt data t := by
    simp [largest_remainders]
  rw [hplain]
  have hts : t - ((lrInitial qt data t).sum : ℚ) < 0 := by
    by_contra hge
    push_neg at hge
    have h0 : (0 : ℤ) ≤ lrRemaining qt data t := by
      unfold lrRemaining ratTrunc
      rw [if_neg (not_lt.mpr hge)]
      exact Int.floor_nonneg.mpr hge
    omega
  have hceil : t - ((lrInitial qt data t).sum : ℚ) ≤ ((lrRemaining qt data t : ℤ) : ℚ) := by
    unfold lrRemaining ratTrunc
    rw [if_pos hts]
    exact Int.le_ceil _
  have hranklen : (lrRanking qt data t).length = data.pops.length := by
    rw [(lrRanking_perm qt data t).length_eq, List.length_range]
  have htoadd : (lrStatesToAdd qt data t).length =
      min (sliceLen (lrRemaining qt data t) data.pops.length) data.pops.length := by
    rw [lrStatesToAdd, List.length_take, hranklen]
  have hne : ¬ (((lrFinalSeats qt data t).sum : ℚ) = t) := by
    rw [lrFinalSeats_sum, htoadd, sliceLen, if_pos h]
    by_cases hcase : (data.pops.length : ℤ) + lrRemaining qt data t ≤ 0
    · rw [Int.toNat_of_nonpos hcase]
      rw [Nat.zero_min, Nat.add_zero]
      intro he
      rw [he] at hts
      simp at hts
    · push_neg at hcase
      have hk : ((((data.pops.length : ℤ) + lrRemaining qt data t).toNat : ℤ)) =
          (data.pops.length : ℤ) + lrRemaining qt data t := Int.toNat_of_nonneg (le_of_lt hcase)
      have hklt : ((data.pops.length : ℤ) + lrRemaining qt data t).toNat ≤ data.pops.length := by
        omega
      rw [min_eq_left hklt]
      intro he
      have hq : ((((data.pops.length : ℤ) + lrRemaining qt data t).toNat : ℕ) : ℚ) =
          (data.pops.length : ℚ) + ((lrRemaining qt data t : ℤ) : ℚ) := by
        exact_mod_cast congrArg (fun z : ℤ => (z : ℚ)) hk
      have hpos : 1 ≤ data.pops.length := by omega
      have hpos' : (1 : ℚ) ≤ (data.pops.length : ℚ) := by exact_mod_cast hpos
      rw [Nat.cast_add, hq] at he
      linarith
  unfold lrPlain
  rw [if_neg hne]

/-- Witness for C7 (amended) at the `T7` imperiali run. -/
theorem c7_witness :
    largest_remainders 0 .imperiali T7 2 false = .error .assertionFailed :=
  c7_amended 0 .imperiali T7 2 (by decide)

/-- On the all-zero-population, unmet-floor input, the no-losers award
loop always awards the next seat to entity 0 (all priorities are zero and
`idxmax` picks the first), so entity 1 never reaches its floor of 5 and
the loop never exits, whatever the fuel. -/
theorem epLoop_zero_pop_diverges :
    ∀ (fuel : ℕ) (j : ℕ) (pr : Option (List ℚ)),
      epLoop .huntingtonHill [0, 0] [1, 5] true 2 fuel [j + 1, 1] pr = .error .fuelLeer := by
  intro fuel
  induction fuel with
  | zero =>
    intro j pr
    have hc : epCond true [1, 5] 2 [j + 1, 1] = true := by
      simp [epCond, anyLtB]
    simp [epLoop, hc]
  | succ f ih =>
    intro j pr
    have hc : epCond true [1, 5] 2 [j + 1, 1] = true := by
      simp [epCond, anyLtB]
    have hpr : epPriorities .huntingtonHill [0, 0] [j + 1, 1] =
        [0, divisorKey .huntingtonHill 0 1] := by
      simp [epPriorities, divisorKey]
    have hkey : divisorKey .huntingtonHill 0 1 = 0 := by
      simp [divisorKey]
    have hidx : idxmax (epPriorities .huntingtonHill [0, 0] [j + 1, 1]) = some 0 := by
      rw [hpr, hkey]
      decide
    have hset : ([j + 1, 1] : List ℕ).set 0 (([j + 1, 1] : List ℕ).getD 0 0 + 1) =
        [j + 1 + 1, 1] := by
      simp
    simp only [epLoop, hc, if_true, hidx, hset]
    exact ih (j + 1) _

/-- Counterexample to claim C8 as stated: with all populations zero
(plain mode, 3-seat integer target) the highest-averages allocator does
not fail at all — the loop terminates normally, awarding every surplus
seat to the first entity. -/
theorem c8_counterexample :
    equal_proportions 1 .huntingtonHill { pops := [0, 0], app2010 := [1, 1] } 3 false =
      .ok ({ pops := [0, 0], app2010 := [1, 1],
             seats := some [2, 1], priority := some [0, 0] },
           { pops := [0, 0], seats := [2, 1] }) := by decide

/-- Claim C8 (amended): the code has no NonConvergenceError.  (1) With no
entities and a positive target the loop body fails on `idxmax` of an
empty priority series (a pandas ValueError).  (2) With all populations
zero in plain mode (integer target at least the entity count, with at
least one entity) the allocator terminates normally with the target total
instead of failing.  (3) In no-losers mode, an all-zero-population input
with an unmet floor loops forever, undetected (the model exhausts every
amount of fuel). -/
theorem c8_amended :
    (∀ (fuel : ℕ) (dt : DivisorType) (data : Table) (t : ℚ) (nl : Bool),
      data.pops = [] → 0 < t → 1 ≤ fuel →
      equal_proportions fuel dt data t nl = .error .idxmaxEmpty) ∧
    (∀ (fuel : ℕ) (dt : DivisorType) (data : Table) (m : ℕ),
      (∀ p ∈ data.pops, p = 0) → 1 ≤ data.pops.length → data.pops.length ≤ m →
      m ≤ data.pops.length + fuel →
      ∃ d2 r, equal_proportions fuel dt data (m : ℚ) false = .ok (d2, r) ∧ r.seats.sum = m) ∧
    (∀ fuel : ℕ,
      equal_proportions fuel .huntingtonHill { pops := [0, 0], app2010 := [1, 5] } 2 true =
        .error .fuelLeer) := by
  refine ⟨?_, ?_, ?_⟩
  · intro fuel dt data t nl hpops ht hfuel
    obtain ⟨f, rfl⟩ : ∃ f, fuel = f + 1 := ⟨fuel - 1, by omega⟩
    have hc : epCond nl data.app2010 t (List.replicate data.pops.length 1) = true := by
      rw [hpops]
      simp only [epCond, List.length_nil, List.replicate_zero, List.sum_nil,
        Nat.cast_zero, decide_eq_true_eq]
      rw [Bool.or_eq_true]
      exact Or.inl (by simpa using ht)
    have hidx : idxmax (epPriorities dt data.pops (List.replicate data.pops.length 1)) = none := by
      rw [hpops]
      rfl
    unfold equal_proportions
    rw [epLoop, if_pos hc, hidx]
  · intro fuel dt data m _hz hpos hle hfe
    obtain ⟨s2, pr2, hrun, hsum⟩ := epLoop_runs_int dt data.pops data.app2010 m fuel
      (List.replicate data.pops.length 1) none (by simp) hpos
      (by rw [sum_replicate_one]; exact hle)
      (by rw [sum_replicate_one]; exact hfe)
    refine ⟨{ data with seats := some s2, priority := pr2 },
      { pops := data.pops, seats := s2 }, ?_, hsum⟩
    unfold equal_proportions
    rw [hrun]
    simp [hsum]
  · intro fuel
    have h0 : epLoop .huntingtonHill [0, 0] [1, 5] true 2 fuel (List.replicate 2 1) none =
        .error .fuelLeer := by
      have := epLoop_zero_pop_diverges fuel 0 none
      simpa using this
    unfold equal_proportions
    simp only [List.length_cons, List.length_nil]
    rw [h0]

/-- Witness for C8 (amended): concrete instantiations of all three parts. -/
theorem c8_witness :
    equal_proportions 1 .huntingtonHill { pops := [], app2010 := [] } 3 false =
      .error .idxmaxEmpty ∧
    (∃ d2 r, equal_proportions 1 .huntingtonHill { pops := [0, 0], app2010 := [1, 1] }
        ((3 : ℕ) : ℚ) false = .ok (d2, r) ∧ r.seats.sum = 3) ∧
    equal_proportions 0 .huntingtonHill { pops := [0, 0], app2010 := [1, 5] } 2 true =
      .error .fuelLeer :=
  ⟨c8_amended.1 1 .huntingtonHill { pops := [], app2010 := [] } 3 false rfl (by norm_num)
      (le_refl 1),
   c8_amended.2.1 1 .huntingtonHill { pops := [0, 0], app2010 := [1, 1] } 3 (by decide)
      (by decide) (by decide) (by decide),
   c8_amended.2.2 0⟩

/-- Counterexample to claim C9 as stated: running `equal_proportions` on
`T0` leaves the input table changed — the `SEATS` (and `PRIORITY`)
columns have been written into it — so the input is not read-only. -/
theorem c9_counterexample :
    equal_proportions 2 .huntingtonHill T0 5 false = .ok (T0ep, R0) ∧
    T0ep ≠ T0 ∧ T0ep.seats ≠ T0.seats := by decide

/-- Claim C9 (amended): both allocators mutate the input table in place,
writing the working `SEATS` column (and, for highest averages, the
`PRIORITY` column) into it; only the `POPULATION` and `APP2010` columns
are left unchanged, and the returned result is a separate fresh frame. -/
theorem c9_amended :
    (∀ (fuel : ℕ) (dt : DivisorType) (data : Table) (t : ℚ) (nl : Bool)
        (d2 : Table) (r : Result),
      equal_proportions fuel dt data t nl = .ok (d2, r) →
      d2.pops = data.pops ∧ d2.app2010 = data.app2010 ∧ d2.seats = some r.seats) ∧
    (∀ (fuel : ℕ) (qt : QuotaType) (data : Table) (t : ℚ) (nl : Bool)
        (d2 : Table) (r : Result),
      largest_remainders fuel qt data t nl = .ok (d2, r) →
      d2.pops = data.pops ∧ d2.app2010 = data.app2010 ∧ d2.seats = some r.seats) := by
  constructor
  · intro fuel dt data t nl d2 r h
    obtain ⟨s, pr, _, hd2, hr, _⟩ := ep_inv h
    rw [hd2, hr]
    exact ⟨rfl, rfl, rfl⟩
  · intro fuel qt data t nl d2 r h
    unfold largest_remainders at h
    cases nl with
    | false =>
      rw [if_neg (by simp)] at h
      obtain ⟨hseats, _, hd2, _⟩ := lrPlain_inv h
      rw [hd2, hseats]
      exact ⟨rfl, rfl, rfl⟩
    | true =>
      rw [if_pos rfl] at h
      obtain ⟨d, t2, _, hpops, happ, hplain, _⟩ := lrNoLosers_ok qt fuel data t d2 r h
      obtain ⟨hseats, _, hd2, _⟩ := lrPlain_inv hplain
      rw [hd2, hseats]
      exact ⟨hpops, happ, rfl⟩

/-- Witness for C9 (amended): the `T0` and `T5` runs, whose post-run
tables keep their input columns and carry the result seats. -/
theorem c9_witness :
    (T0ep.pops = T0.pops ∧ T0ep.app2010 = T0.app2010 ∧ T0ep.seats = some R0.seats) ∧
    (T5lr.pops = T5.pops ∧ T5lr.app2010 = T5.app2010 ∧ T5lr.seats = some R5.seats) :=
  ⟨c9_amended.1 2 .huntingtonHill T0 5 false T0ep R0 (by decide),
   c9_amended.2 0 .hare T5 5 false T5lr R5 (by decide)⟩

theorem den_ne_one_not_int {q : ℚ} (h : q.den ≠ 1) : ∀ m : ℤ, q ≠ (m : ℚ) := by
  intro m he
  apply h
  rw [he, Rat.den_intCast]

/-- Claim C10: on a non-integer target (plain mode, at least one entity,
enough fuel for the loop to reach the target), `equal_proportions` stops
awarding at the first integer total at or above the target, and the final
integer-total-versus-fractional-target assert then fails, so plain mode
can never succeed on a fractional target. -/
theorem c10_fractional_target (fuel : ℕ) (dt : DivisorType) (data : Table) (t : ℚ)
    (hnotint : ∀ m : ℤ, t ≠ (m : ℚ)) (hpos : 1 ≤ data.pops.length)
    (hfuel : t ≤ (data.pops.length : ℚ) + fuel) :
    equal_proportions fuel dt data t false = .error .assertionFailed := by
  obtain ⟨s2, pr2, hrun⟩ := epLoop_runs dt data.pops data.app2010 t fuel
    (List.replicate data.pops.length 1) none (by simp) hpos
    (by rw [sum_replicate_one]; exact hfuel)
  unfold equal_proportions
  rw [hrun]
  have hne : ¬ ((s2.sum : ℚ) = t) := fun he => hnotint (s2.sum : ℤ)
    (by rw [← he, Int.cast_natCast])
  simp only [Bool.false_or, decide_eq_true_eq]
  rw [if_neg hne]

/-- Witness for C10: target 7/2 with one entity of population 7. -/
theorem c10_witness :
    equal_proportions 3 .huntingtonHill { pops := [7], app2010 := [1] } (7/2) false =
      .error .assertionFailed :=
  c10_fractional_target 3 .huntingtonHill { pops := [7], app2010 := [1] } (7/2)
    (den_ne_one_not_int (by decide)) (by decide) (by decide)
